import Mathlib

/-!
Verification development for the MOT repository fragment
`src/mot/data/opencl/nmsimplex.h`, a 14-line C header that declares the
single function prototype

  int nmsimplex(MOT_FLOAT_TYPE* const model_parameters, const void* const data);

The header is embedded line by line as `nmsimplex_h`.  A small model of the
C preprocessor (include guards via `#ifndef` / `#define` / `#endif`) and a
line classifier give the structural facts about the file; the behaviour of
the absent `nmsimplex` body is modelled from the specification where a claim
needs it.
-/

/-- The exact lines of `src/mot/data/opencl/nmsimplex.h`, in order. -/
def nmsimplex_h : List String :=
  [ "#ifndef NMSIMPLEX_H"
  , "#define NMSIMPLEX_H"
  , ""
  , "/**"
  , " * Author = Robbert Harms"
  , " * Date = 2014-02-05"
  , " * License = LGPL v3"
  , " * Maintainer = Robbert Harms"
  , " * Email = robbert.harms@maastrichtuniversity.nl"
  , " */"
  , ""
  , "int nmsimplex(MOT_FLOAT_TYPE* const model_parameters, const void* const data);"
  , ""
  , "#endif // NMSIMPLEX_H" ]

/-- The one prototype line of the header. -/
def protoLine : String :=
  "int nmsimplex(MOT_FLOAT_TYPE* const model_parameters, const void* const data);"

/-- Drop leading space characters from a list of characters. -/
def dropSpaces : List Char → List Char
  | [] => []
  | c :: cs => if c == ' ' then dropSpaces cs else c :: cs

/-- Kinds of lines occurring in a C header at top level: preprocessor
directives, blank lines, comment lines, and declaration content. -/
inductive LineKind where
  | directive
  | blank
  | comment
  | decl
deriving DecidableEq, BEq

/-- Classify a source line by its first non-space character, following C
lexical structure: a leading hash is a preprocessor directive, a leading
star or comment opener belongs to a comment, anything else is declaration
content. -/
def classifyLine (l : String) : LineKind :=
  match dropSpaces l.data with
  | [] => LineKind.blank
  | c :: cs =>
    if c == '#' then LineKind.directive
    else if c == '*' then LineKind.comment
    else if c == '/' then
      if cs.head? == some '*' || cs.head? == some '/' then LineKind.comment
      else LineKind.decl
    else LineKind.decl

/-- The declaration-content lines of a file: everything that is not a
preprocessor directive, a blank line, or a comment line. -/
def declLines (ls : List String) : List String :=
  ls.filter (fun l => classifyLine l == LineKind.decl)

/-- Whether a line contains the character of the given code point. -/
def hasCharCode (l : String) (n : Nat) : Bool :=
  l.data.any (fun c => c.toNat == n)

/-- Whether `pat` occurs as a contiguous substring of the character list. -/
def hasSubstrC (pat : List Char) : List Char → Bool
  | [] => pat.isPrefixOf ([] : List Char)
  | c :: cs => pat.isPrefixOf (c :: cs) || hasSubstrC pat cs

/-- Whether `pat` occurs as a contiguous substring of `s`. -/
def hasSubstr (s pat : String) : Bool :=
  hasSubstrC pat.data s.data

/-- The return-type token of a C prototype line: the characters before the
first space. -/
def returnTypeOf (s : String) : String :=
  ⟨s.data.takeWhile (fun c => !(c == ' '))⟩

/-- The declared function name of a C prototype line: the characters between
the first space and the opening parenthesis. -/
def funNameOf (s : String) : String :=
  ⟨((s.data.dropWhile (fun c => !(c == ' '))).drop 1).takeWhile
    (fun c => !(c == '('))⟩

/-- C1: the header's only declaration content is the single prototype line,
exactly as quoted in the spec, and it declares the function `nmsimplex`; no
other function is declared. -/
theorem header_declares_only_nmsimplex :
    declLines nmsimplex_h =
      ["int nmsimplex(MOT_FLOAT_TYPE* const model_parameters, const void* const data);"]
    ∧ funNameOf protoLine = "nmsimplex" := by
  constructor
  · rfl
  · rfl

/-- C6: every line of the header is a preprocessor directive, a blank line,
a comment line, or the single prototype line; no line contains an opening
brace (code point 123), so no function body and hence no definition of
`nmsimplex` exists in the repository. -/
theorem header_is_declaration_only :
    nmsimplex_h.map classifyLine =
      [LineKind.directive, LineKind.directive, LineKind.blank,
       LineKind.comment, LineKind.comment, LineKind.comment, LineKind.comment,
       LineKind.comment, LineKind.comment, LineKind.comment, LineKind.blank,
       LineKind.decl, LineKind.blank, LineKind.directive]
    ∧ nmsimplex_h.all (fun l => !(hasCharCode l 123)) = true
    ∧ (nmsimplex_h.filter (fun l => classifyLine l == LineKind.decl)).length = 1 := by
  refine ⟨rfl, rfl, rfl⟩

/-- C8: the header file consists of exactly 14 lines. -/
theorem header_is_fourteen_lines : nmsimplex_h.length = 14 := by
  rfl

/-- A parsed view of one header line as the C preprocessor sees it: an
include-guard test, a macro definition, the end of a conditional block, or
ordinary text passed through. -/
inductive PLine where
  | ifndefD (m : String)
  | defineD (m : String)
  | endifD
  | text (l : String)
deriving DecidableEq

/-- Whether `p` is a prefix of `s`, character by character. -/
def startsWithC (s p : String) : Bool :=
  p.data.isPrefixOf s.data

/-- The macro name in a directive line: the token after the first `n`
characters, up to the next space. -/
def macroNameAfter (l : String) (n : Nat) : String :=
  ⟨(l.data.drop n).takeWhile (fun c => !(c == ' '))⟩

/-- Parse one line into its preprocessor-level form, following C directive
syntax for the three directives the header uses. -/
def parseDirective (l : String) : PLine :=
  if startsWithC l "#ifndef " then PLine.ifndefD (macroNameAfter l 8)
  else if startsWithC l "#define " then PLine.defineD (macroNameAfter l 8)
  else if startsWithC l "#endif" then PLine.endifD
  else PLine.text l

/-- The state of a translation unit while preprocessing: the set of defined
macro names and the text lines emitted so far. -/
structure PPState where
  defined : List String
  output : List String
deriving DecidableEq

/-- One pass of the C preprocessor over a list of parsed lines, carrying a
stack of conditional-block activity flags: an `#ifndef` pushes whether its
block is active, `#endif` pops, and definitions and text take effect only
while all enclosing blocks are active. -/
def ppSteps : List PLine → List Bool → PPState → PPState
  | [], _, st => st
  | PLine.ifndefD m :: ls, stk, st =>
    ppSteps ls ((stk.all id && !(st.defined.contains m)) :: stk) st
  | PLine.defineD m :: ls, stk, st =>
    if stk.all id then ppSteps ls stk ⟨st.defined ++ [m], st.output⟩
    else ppSteps ls stk st
  | PLine.endifD :: ls, stk, st => ppSteps ls (stk.drop 1) st
  | PLine.text l :: ls, stk, st =>
    if stk.all id then ppSteps ls stk ⟨st.defined, st.output ++ [l]⟩
    else ppSteps ls stk st

/-- The header's lines in parsed preprocessor form. -/
def headerPLines : List PLine :=
  nmsimplex_h.map parseDirective

/-- Including `nmsimplex.h` once into a translation unit in state `st`. -/
def processHeader (st : PPState) : PPState :=
  ppSteps headerPLines [] st

/-- Including `nmsimplex.h` `n` times in sequence. -/
def includeNTimes : Nat → PPState → PPState
  | 0, st => st
  | n + 1, st => includeNTimes n (processHeader st)

/-- The lines the header emits between its guard directives: the blank
lines, the license comment, and the prototype. -/
def bodyLines : List String :=
  [ ""
  , "/**"
  , " * Author = Robbert Harms"
  , " * Date = 2014-02-05"
  , " * License = LGPL v3"
  , " * Maintainer = Robbert Harms"
  , " * Email = robbert.harms@maastrichtuniversity.nl"
  , " */"
  , ""
  , protoLine
  , "" ]

lemma headerPLines_eq :
    headerPLines =
      [ PLine.ifndefD "NMSIMPLEX_H"
      , PLine.defineD "NMSIMPLEX_H"
      , PLine.text ""
      , PLine.text "/**"
      , PLine.text " * Author = Robbert Harms"
      , PLine.text " * Date = 2014-02-05"
      , PLine.text " * License = LGPL v3"
      , PLine.text " * Maintainer = Robbert Harms"
      , PLine.text " * Email = robbert.harms@maastrichtuniversity.nl"
      , PLine.text " */"
      , PLine.text ""
      , PLine.text protoLine
      , PLine.text ""
      , PLine.endifD ] := by
  rfl

lemma ppSteps_run_inactive (st : PPState) :
    ppSteps (headerPLines.drop 1) [false] st = st := by
  rfl

lemma ppSteps_text_append (ts : List String) (rest : List PLine) (st : PPState) :
    ppSteps (ts.map PLine.text ++ rest) [true] st
      = ppSteps rest [true] ⟨st.defined, st.output ++ ts⟩ := by
  induction ts generalizing st with
  | nil => simp
  | cons a t ih =>
    show ppSteps (t.map PLine.text ++ rest) [true] ⟨st.defined, st.output ++ [a]⟩ = _
    rw [ih]
    simp [List.append_assoc]

lemma ppSteps_run_active (st : PPState) :
    ppSteps (headerPLines.drop 1) [true] st
      = ⟨st.defined ++ ["NMSIMPLEX_H"], st.output ++ bodyLines⟩ := by
  have e : headerPLines.drop 1
      = PLine.defineD "NMSIMPLEX_H" :: (bodyLines.map PLine.text ++ [PLine.endifD]) := by
    rfl
  rw [e]
  show ppSteps (bodyLines.map PLine.text ++ [PLine.endifD]) [true]
      ⟨st.defined ++ ["NMSIMPLEX_H"], st.output⟩ = _
  rw [ppSteps_text_append]
  rfl

lemma processHeader_of_defined (st : PPState)
    (h : st.defined.contains "NMSIMPLEX_H" = true) :
    processHeader st = st := by
  have e : processHeader st
      = ppSteps (headerPLines.drop 1) [!(st.defined.contains "NMSIMPLEX_H")] st := by
    rfl
  rw [e, h]
  exact ppSteps_run_inactive st

lemma processHeader_of_not_defined (st : PPState)
    (h : st.defined.contains "NMSIMPLEX_H" = false) :
    processHeader st = ⟨st.defined ++ ["NMSIMPLEX_H"], st.output ++ bodyLines⟩ := by
  have e : processHeader st
      = ppSteps (headerPLines.drop 1) [!(st.defined.contains "NMSIMPLEX_H")] st := by
    rfl
  rw [e, h]
  exact ppSteps_run_active st

lemma contains_append_self (ms : List String) :
    (ms ++ ["NMSIMPLEX_H"]).contains "NMSIMPLEX_H" = true := by
  induction ms with
  | nil => rfl
  | cons a t ih =>
    simp only [List.cons_append, List.contains_cons, ih, Bool.or_true]

lemma processHeader_idem (st : PPState) :
    processHeader (processHeader st) = processHeader st := by
  cases h : st.defined.contains "NMSIMPLEX_H" with
  | true => rw [processHeader_of_defined st h, processHeader_of_defined st h]
  | false =>
    rw [processHeader_of_not_defined st h]
    exact processHeader_of_defined _ (contains_append_self _)

/-- C9: including the header any positive number of times leaves the
translation unit in exactly the state of including it once, so repeated
inclusion is idempotent and the prototype is introduced only on the first
inclusion. -/
theorem header_inclusion_idempotent :
    ∀ (n : Nat) (st : PPState), includeNTimes (n + 1) st = processHeader st := by
  intro n
  induction n with
  | zero => intro st; rfl
  | succ k ih =>
    intro st
    calc includeNTimes (k + 1 + 1) st
        = includeNTimes (k + 1) (processHeader st) := rfl
      _ = processHeader (processHeader st) := ih (processHeader st)
      _ = processHeader st := processHeader_idem st

/-- C10: on a translation unit that has not yet seen the guard, including
the header adds exactly one macro name, `NMSIMPLEX_H`, and exactly one
declaration line, the `nmsimplex` prototype; nothing else in the unit's
state changes. -/
theorem header_footprint (st : PPState)
    (h : st.defined.contains "NMSIMPLEX_H" = false) :
    (processHeader st).defined = st.defined ++ ["NMSIMPLEX_H"]
    ∧ declLines (processHeader st).output = declLines st.output ++ [protoLine]
    ∧ funNameOf protoLine = "nmsimplex" := by
  rw [processHeader_of_not_defined st h]
  refine ⟨rfl, ?_, rfl⟩
  show List.filter _ (st.output ++ bodyLines) = _
  rw [List.filter_append]
  congr 1

/-- Witness for C10 at the empty translation unit. -/
theorem header_footprint_holds :
    (processHeader ⟨[], []⟩).defined = ([] : List String) ++ ["NMSIMPLEX_H"]
    ∧ declLines (processHeader ⟨[], []⟩).output = declLines [] ++ [protoLine]
    ∧ funNameOf protoLine = "nmsimplex" :=
  header_footprint ⟨[], []⟩ rfl

/-- C7: preprocessing the header from an empty translation unit defines
exactly the macro `NMSIMPLEX_H` and in particular never defines
`MOT_FLOAT_TYPE`; the header contains no `typedef`, the prototype refers to
the unresolved name `MOT_FLOAT_TYPE`, and neither `float` nor `double`
occurs in it, so the declaration alone fixes no floating-point precision. -/
theorem header_leaves_MOT_FLOAT_TYPE_undefined :
    (processHeader ⟨[], []⟩).defined = ["NMSIMPLEX_H"]
    ∧ (processHeader ⟨[], []⟩).defined.contains "MOT_FLOAT_TYPE" = false
    ∧ hasSubstr protoLine "MOT_FLOAT_TYPE" = true
    ∧ nmsimplex_h.all (fun l => !(hasSubstr l "typedef")) = true
    ∧ hasSubstr protoLine "float" = false
    ∧ hasSubstr protoLine "double" = false := by
  refine ⟨rfl, rfl, rfl, rfl, rfl, rfl⟩

/-- The memory visible across a call to `nmsimplex`: the caller-owned
parameter buffer the first argument points to, the opaque bytes the `data`
argument points to, and the rest of the caller's memory. -/
structure CallState (α : Type) where
  model_parameters : List α
  data : List Nat
  env : List Nat

/-- Writing `new` through a pointer into the buffer `old` in place: the
buffer keeps its length, its first `min` cells take the written values and
any remaining cells keep their old contents. -/
def overwrite {α : Type} (old new : List α) : List α :=
  new.take old.length ++ old.drop (min new.length old.length)

/-- Modelled from the spec: the body of `nmsimplex` is absent from the
repository, which holds only its prototype. The spec states that the
routine reads the parameter buffer and the opaque `data` context, performs
an elsewhere-defined optimization, overwrites `model_parameters` in place
as its only side effect, and returns an `int` status of unspecified
encoding. The unknown optimization body is modelled as an arbitrary `core`
function of exactly the values the routine may read, and the call writes
the resulting parameter values in place. -/
def nmsimplex {α : Type} (core : List α → List Nat → Int × List α)
    (s : CallState α) : Int × CallState α :=
  let r := core s.model_parameters s.data
  (r.1, { s with model_parameters := overwrite s.model_parameters r.2 })

/-- Modelled from the spec: the call boundary of `nmsimplex` with C pointer
arguments that may be null (`none`). The spec states its guarantees for a
non-null, finite, mutable parameter buffer and a non-null opaque context;
the model yields a defined call result exactly in that case. -/
def nmsimplexCall {α : Type} (core : List α → List Nat → Int × List α)
    (params : Option (List α)) (dat : Option (List Nat)) :
    Option (Int × List α) :=
  match params, dat with
  | some p, some d =>
    let r := nmsimplex core ⟨p, d, []⟩
    some (r.1, r.2.model_parameters)
  | _, _ => none

/-- C2: whatever the optimization body computes, a call to `nmsimplex`
leaves the `data` bytes and all other memory unchanged and mutates only
the caller's `model_parameters` buffer, in place: the buffer keeps its
length and afterwards holds the values the body wrote. -/
theorem nmsimplex_mutates_only_model_parameters (α : Type)
    (core : List α → List Nat → Int × List α) (s : CallState α) :
    (nmsimplex core s).2.data = s.data
    ∧ (nmsimplex core s).2.env = s.env
    ∧ (nmsimplex core s).2.model_parameters.length = s.model_parameters.length
    ∧ (nmsimplex core s).2.model_parameters
        = overwrite s.model_parameters (core s.model_parameters s.data).2 := by
  refine ⟨rfl, rfl, ?_, rfl⟩
  show (overwrite s.model_parameters (core s.model_parameters s.data).2).length = _
  simp only [overwrite, List.length_append, List.length_take, List.length_drop]
  omega

/-- C3: whatever the optimization body computes, a call to `nmsimplex`
leaves the memory referenced by `data` exactly as it was: the routine only
reads it. -/
theorem nmsimplex_data_readonly (α : Type)
    (core : List α → List Nat → Int × List α) (s : CallState α) :
    (nmsimplex core s).2.data = s.data := by
  rfl

/-- C4: the prototype's return type is `int`, and the interface constrains
the returned status no further: every integer is the return value of some
admissible body on some state, so no particular meaning of any return
value is guaranteed. -/
theorem nmsimplex_status_unspecified :
    returnTypeOf protoLine = "int"
    ∧ ∀ c : Int, ∃ core : List ℚ → List Nat → Int × List ℚ,
        ∃ s : CallState ℚ, (nmsimplex core s).1 = c := by
  refine ⟨rfl, ?_⟩
  intro c
  exact ⟨fun p _ => (c, p), ⟨[], [], []⟩, rfl⟩

/-- C5: the call boundary yields its guaranteed result exactly under the
interface's preconditions: with a non-null finite parameter buffer and a
non-null context it returns the status and in-place-updated buffer, and
with a null pointer in either position no behaviour is guaranteed. -/
theorem nmsimplex_requires_nonnull_arguments :
    (∀ core : List ℚ → List Nat → Int × List ℚ, ∀ (p : List ℚ) (d : List Nat),
        nmsimplexCall core (some p) (some d)
          = some ((core p d).1, overwrite p (core p d).2))
    ∧ (∀ core : List ℚ → List Nat → Int × List ℚ, ∀ d : Option (List Nat),
        nmsimplexCall core none d = none)
    ∧ (∀ core : List ℚ → List Nat → Int × List ℚ, ∀ p : Option (List ℚ),
        nmsimplexCall core p none = none) := by
  refine ⟨fun core p d => rfl, fun core d => ?_, fun core p => ?_⟩
  · cases d <;> rfl
  · cases p <;> rfl
